import Mathlib

/-!
Shallow embedding of the Master coordinator in
`src/quarkchain/cluster/master.py` and proofs about the mining dispatcher,
the root-block update serializer, the transaction fan-out, the handshake
shutdown logic and the slave-to-peer forwarding rule.

Machine integers are modelled as `Nat`; Python float division of block
economies is modelled exactly on `ℚ` (the spec declares eco comparisons to
be value-equality on the ratio); Python `random.random()` is modelled as an
explicit stream of rational draws consumed in order.
-/

namespace QuarkMaster

/-- Economic information one slave reports for one shard branch (the
`EcoInfo` records inside a `GetEcoInfoListResponse`).  `branchValue` is the
numeric `branch.value`; the root chain has branch value `0` and every shard
branch has a positive value. -/
structure EcoInfo where
  branchValue : Nat
  height : Nat
  difficulty : Nat
  coinbaseAmount : Nat
  unconfirmedHeadersCoinbaseAmount : Nat
  deriving Repr, DecidableEq

/-- Eco of a candidate, `master.py` line 365: `eco = ecoInfo.coinbaseAmount /
ecoInfo.difficulty`, Python true division modelled on `ℚ`. -/
def EcoInfo.eco (e : EcoInfo) : ℚ :=
  (e.coinbaseAmount : ℚ) / (e.difficulty : ℚ)

/-- Modelled from the spec: `quarkchain.core.ShardMask` is not under `src/`.
The spec (§3) describes a shard mask as "a compact predicate over the
shard-id space" supporting a membership test and an overlap test; since for
a fixed shard size shard ids and shard branch values are in bijection, the
predicate is carried here as the list of shard branch values the mask
selects.  The root chain is "not any shard" (§3), so a mask never contains
the root branch value `0`; theorems that need this state it as a
hypothesis. -/
structure ShardMask where
  branchValues : List Nat
  deriving Repr, DecidableEq

/-- Membership test of a mask, the model of `ShardMask.containBranch`. -/
def ShardMask.containBranchValue (m : ShardMask) (b : Nat) : Bool :=
  m.branchValues.contains b

/-- Overlap test between two masks, the model of `ShardMask.hasOverlap`:
some shard branch is selected by both. -/
def ShardMask.hasOverlap (m other : ShardMask) : Bool :=
  m.branchValues.any (fun b => other.containBranchValue b)

/-- The slave-connection state the dispatcher consults: the slave id and its
`shardMaskList` (`SlaveConnection.__init__`, `master.py` lines 46-51). -/
structure SlaveConn where
  id : Nat
  shardMaskList : List ShardMask
  deriving Repr, DecidableEq

/-- Translation of `SlaveConnection.hasOverlap` (`master.py` lines 77-81):
some mask of the slave overlaps the given mask. -/
def SlaveConn.hasOverlap (s : SlaveConn) (m : ShardMask) : Bool :=
  s.shardMaskList.any (fun lm => lm.hasOverlap m)

/-- Slaves polled with `GET_ECO_INFO_LIST_REQUEST` in `getNextBlockToMine`
(`master.py` lines 333-337): a slave is skipped exactly when a mask was
supplied and the slave has no overlap with it. -/
def polledSlaves (slavePool : List SlaveConn) (mask : Option ShardMask) :
    List SlaveConn :=
  slavePool.filter (fun s =>
    match mask with
    | none => true
    | some m => s.hasOverlap m)

/-- Sum of `unconfirmedHeadersCoinbaseAmount` over the merged branch map
(`master.py` lines 351-353). -/
def unconfirmedCoinbaseSum (ecoList : List EcoInfo) : Nat :=
  ecoList.foldl (fun acc e => acc + e.unconfirmedHeadersCoinbaseAmount) 0

/-- Translation of `master.py` line 354: `rootCoinbaseAmount =
rootCoinbaseAmount // 2`, Python floor division on integers. -/
def rootCoinbaseAmount (ecoList : List EcoInfo) : Nat :=
  unconfirmedCoinbaseSum ecoList / 2

/-- Translation of `master.py` line 357: the initial `maxEco`, the root
candidate's economy `rootCoinbaseAmount / rootState.getNextBlockDifficulty()`
(Python true division modelled on `ℚ`). -/
def initMaxEco (ecoList : List EcoInfo) (rootDifficulty : Nat) : ℚ :=
  (rootCoinbaseAmount ecoList : ℚ) / (rootDifficulty : ℚ)

/-- Follows the spec words (§4.D step 3) for claim C6: `root_coinbase = (sum
of unconfirmed_headers_coinbase_amount across all branches) / 2` with the
division by 2 read as exact arithmetic, then `root_eco = root_coinbase /
root_state.next_block_difficulty`. -/
def initMaxEcoSpec (ecoList : List EcoInfo) (rootDifficulty : Nat) : ℚ :=
  (unconfirmedCoinbaseSum ecoList : ℚ) / 2 / (rootDifficulty : ℚ)

/-- Mutable state of the selection loop of `getNextBlockToMine`
(`master.py` lines 356-381).  `branchValueWithMaxEco = none` models the
Python `None` sentinel; `draws` is the stream of values `random.random()`
returns, consumed in order. -/
structure SelState where
  branchValueWithMaxEco : Option Nat
  maxEco : ℚ
  dupEcoCount : Nat
  blockHeight : Nat
  draws : List ℚ
  deriving Repr, DecidableEq

/-- Mask filter at the top of the loop body (`master.py` line 362): with no
mask every branch is considered, otherwise only branches the mask contains. -/
def maskAllows : Option ShardMask → Nat → Bool
  | none, _ => true
  | some m, b => m.containBranchValue b

/-- The Python comparison `branchValueWithMaxEco > 0` (only reached when the
winner is set; the `none` case is unreachable there and mapped to `false`). -/
def winnerIsShard : Option Nat → Bool
  | some v => decide (0 < v)
  | none => false

/-- Next value of `random.random()`: the head of the draw stream (an
exhausted stream yields `1`, which never wins a `< 1 / dupEcoCount` test). -/
def nextDraw : List ℚ → ℚ × List ℚ
  | [] => (1, [])
  | d :: rest => (d, rest)

/-- One iteration of the `for branchValue, ecoInfo in ...` selection loop
(`master.py` lines 361-380), translated clause for clause: the mask filter,
then the replace test `branchValueWithMaxEco is None or eco > maxEco or (eco
== maxEco and branchValueWithMaxEco > 0 and blockHeight > ecoInfo.height)`,
then the randomized tie-break `elif eco == maxEco and randomizeOutput` with
its height skip and its reservoir draw (the reservoir replace updates the
winner and `maxEco` but not `blockHeight`, exactly as the source does). -/
def selStep (randomizeOutput : Bool) (mask : Option ShardMask)
    (st : SelState) (e : EcoInfo) : SelState :=
  if ¬ maskAllows mask e.branchValue then st
  else if st.branchValueWithMaxEco = none ∨ e.eco > st.maxEco ∨
      (e.eco = st.maxEco ∧ winnerIsShard st.branchValueWithMaxEco ∧
        st.blockHeight > e.height) then
    { branchValueWithMaxEco := some e.branchValue, maxEco := e.eco,
      dupEcoCount := 1, blockHeight := e.height, draws := st.draws }
  else if e.eco = st.maxEco ∧ randomizeOutput then
    if winnerIsShard st.branchValueWithMaxEco ∧ st.blockHeight < e.height then
      st
    else
      let dup := st.dupEcoCount + 1
      let p := nextDraw st.draws
      if p.1 < 1 / (dup : ℚ) then
        { branchValueWithMaxEco := some e.branchValue, maxEco := e.eco,
          dupEcoCount := dup, blockHeight := st.blockHeight, draws := p.2 }
      else
        { st with dupEcoCount := dup, draws := p.2 }
  else st

/-- Translation of `master.py` lines 356-360: the initial loop state.  With
no mask the winner starts as the root branch `0`; with a mask there is no
initial winner (Python `None`).  `maxEco` is the root economy in both
cases. -/
def initSelState (mask : Option ShardMask) (ecoList : List EcoInfo)
    (rootDifficulty : Nat) (draws : List ℚ) : SelState where
  branchValueWithMaxEco := if mask = none then some 0 else none
  maxEco := initMaxEco ecoList rootDifficulty
  dupEcoCount := 1
  blockHeight := 0
  draws := draws

/-- The whole selection loop: a left fold of `selStep` over the merged
branch map in iteration order. -/
def runSelection (randomizeOutput : Bool) (mask : Option ShardMask)
    (ecoList : List EcoInfo) (rootDifficulty : Nat) (draws : List ℚ) :
    SelState :=
  ecoList.foldl (selStep randomizeOutput mask)
    (initSelState mask ecoList rootDifficulty draws)

/-- Which path `getNextBlockToMine` takes after the selection loop
(`master.py` lines 382-386): the root path when the winner compares equal to
`0`, the minor path on the winning shard branch otherwise; `crashPath`
models the Python exception raised when the sentinel `None` flows into
`Branch(branchValueWithMaxEco)` (in Python `None == 0` is `False`, so the
sentinel does not take the root path). -/
inductive MinePath where
  | rootPath
  | minorPath (branchValue : Nat)
  | crashPath
  deriving Repr, DecidableEq

/-- Dispatch on the final winner (`master.py` lines 382-386). -/
def dispatchPath : Option Nat → MinePath
  | some 0 => .rootPath
  | some (v + 1) => .minorPath (v + 1)
  | none => .crashPath

/-- Path taken by `getNextBlockToMine(address, shardMaskValue,
randomizeOutput)` once the eco responses are merged (`master.py` lines
325-386): `interp` stands for the `ShardMask(shardMaskValue)` constructor
applied at line 330, which is only reached when `shardMaskValue` is
non-zero. -/
def getNextBlockToMinePath (interp : Nat → ShardMask) (shardMaskValue : Nat)
    (randomizeOutput : Bool) (ecoList : List EcoInfo) (rootDifficulty : Nat)
    (draws : List ℚ) : MinePath :=
  let mask : Option ShardMask :=
    if shardMaskValue = 0 then none else some (interp shardMaskValue)
  dispatchPath
    (runSelection randomizeOutput mask ecoList rootDifficulty draws).branchValueWithMaxEco

/-- Result kinds of the mining dispatcher: the Python pairs `(None, None)`,
`(False, block)` and `(True, block)` returned by `getNextBlockToMine` and
`__createRootBlockToMineOrFallbackToMinorBlock` (spec kinds NONE, MINOR,
ROOT). -/
inductive MineResult (Block : Type) where
  | noneResult
  | minor (b : Block)
  | root (b : Block)
  deriving Repr, DecidableEq

/-- The proof-of-progress loop of
`__createRootBlockToMineOrFallbackToMinorBlock` (`master.py` lines 303-313)
over the remaining shard ids: `headersOf i` is
`shardIdToHeaderList.get(i, [])` from the merged responses, `minorOracle i`
the outcome of `__getMinorBlockToMine` on shard `i` (`none` when that
request fails), `createBlockToMine` the collaborator call
`rootState.createBlockToMine(headerList, address)`.  Headers are appended to
the accumulator before the threshold test, exactly as the source extends
`headerList` before checking `len(headers)`. -/
def proofOfProgressLoop {Header Block : Type} (progressBlocks : Nat)
    (headersOf : Nat → List Header) (minorOracle : Nat → Option Block)
    (createBlockToMine : List Header → Block) :
    List Nat → List Header → MineResult Block
  | [], headerList => .root (createBlockToMine headerList)
  | shardId :: rest, headerList =>
    let headers := headersOf shardId
    let headerList := headerList ++ headers
    if headers.length < progressBlocks then
      match minorOracle shardId with
      | none => .noneResult
      | some block => .minor block
    else
      proofOfProgressLoop progressBlocks headersOf minorOracle
        createBlockToMine rest headerList

/-- Translation of `master.py` lines 303-313: iterate shard ids
`range(shardSize)` in ascending order starting from an empty header list. -/
def createRootBlockToMineOrFallback {Header Block : Type}
    (shardSize progressBlocks : Nat) (headersOf : Nat → List Header)
    (minorOracle : Nat → Option Block)
    (createBlockToMine : List Header → Block) : MineResult Block :=
  proofOfProgressLoop progressBlocks headersOf minorOracle createBlockToMine
    (List.range shardSize) []

/-- Follows the spec words (§4.D step R) for claim C5: the first shard id in
`[0, SHARD_SIZE)` whose header count is below `PROOF_OF_PROGRESS_BLOCKS`
triggers the minor-block fallback on that shard; when every shard meets the
threshold, all headers are concatenated in shard-id order and handed to
`root_state.create_block_to_mine`. -/
def createRootBlockSpec {Header Block : Type}
    (shardSize progressBlocks : Nat) (headersOf : Nat → List Header)
    (minorOracle : Nat → Option Block)
    (createBlockToMine : List Header → Block) : MineResult Block :=
  match (List.range shardSize).find?
      (fun i => (headersOf i).length < progressBlocks) with
  | some i =>
    match minorOracle i with
    | none => .noneResult
    | some block => .minor block
  | none =>
    .root (createBlockToMine ((List.range shardSize).flatMap headersOf))

/-- Outcome of one `rootState.addBlock` call (`RootState.add_block`): the
updated-tip boolean on success, or the `ValueError` a validation failure
raises. -/
inductive AddBlockOutcome where
  | ok (updatedTip : Bool)
  | validationFailure
  deriving Repr, DecidableEq

/-- Trace of one run of `updateRooBlockAsync` over the queued blocks:
`addBlockCalls` lists the blocks `rootState.addBlock` was actually invoked
on, `broadcasts` the blocks broadcast to all slaves as
`ADD_ROOT_BLOCK_REQUEST`, both in order; `updateTip` is the final value of
the flag that decides whether peers get `sendUpdatedTip`. -/
structure DrainTrace (Block : Type) where
  addBlockCalls : List Block
  broadcasts : List Block
  updateTip : Bool
  deriving Repr, DecidableEq

/-- Translation of the drain loop of `updateRooBlockAsync` (`master.py`
lines 428-440), literal about the Python statement `updateTip = updateTip or
self.rootState.addBlock(rBlock)`: `or` short-circuits, so once `updateTip`
is `True` the right operand is not evaluated — `addBlock` is no longer
called (and can no longer raise), while the broadcast after the `try` block
still runs for the popped block.  A `ValueError` from `addBlock` skips the
broadcast and continues with the next queued block. -/
def updateRootBlockDrain {Block : Type} (addBlock : Block → AddBlockOutcome) :
    List Block → Bool → DrainTrace Block
  | [], updateTip => ⟨[], [], updateTip⟩
  | rBlock :: rest, updateTip =>
    if updateTip then
      let t := updateRootBlockDrain addBlock rest true
      ⟨t.addBlockCalls, rBlock :: t.broadcasts, t.updateTip⟩
    else
      match addBlock rBlock with
      | .validationFailure =>
        let t := updateRootBlockDrain addBlock rest false
        ⟨rBlock :: t.addBlockCalls, t.broadcasts, t.updateTip⟩
      | .ok b =>
        let t := updateRootBlockDrain addBlock rest b
        ⟨rBlock :: t.addBlockCalls, rBlock :: t.broadcasts, t.updateTip⟩

/-- Translation of `master.py` lines 442-444: after the queue is drained,
every connected peer receives `sendUpdatedTip` exactly when the final
`updateTip` flag is true. -/
def notifiedPeers {Block Peer : Type} (addBlock : Block → AddBlockOutcome)
    (queue : List Block) (peers : List Peer) : List Peer :=
  if (updateRootBlockDrain addBlock queue false).updateTip then peers else []

/-- The `add_block` oracle of the claim C1 failing input (scenario R1 with
block 1 updating the tip): block 1 succeeds and updates the tip, block 2
raises a validation failure, every other block succeeds without updating the
tip. -/
def r1AddBlock : Nat → AddBlockOutcome
  | 1 => .ok true
  | 2 => .validationFailure
  | _ => .ok false

/-- A transaction as `addTransaction` sees it: only the branch value derived
by `Branch(tx.code.getEvmTransaction().branchValue)` matters
(`master.py` line 403). -/
structure Tx where
  branchValue : Nat
  deriving Repr, DecidableEq

/-- Translation of `MasterServer.addTransaction` (`master.py` lines
402-415): an unknown branch value returns `False` before any slave is
contacted; otherwise the transaction goes to every slave serving the branch
and the gathered results are combined with `all`.  The registry
`branchToSlaves` is carried as an association list; the returned pair is the
result together with the slaves contacted, in order. -/
def addTransaction (branchToSlaves : List (Nat × List SlaveConn))
    (slaveAccepts : SlaveConn → Bool) (tx : Tx) : Bool × List SlaveConn :=
  match branchToSlaves.lookup tx.branchValue with
  | none => (false, [])
  | some slaves => (slaves.all slaveAccepts, slaves)

/-- State of a one-shot asyncio future as the Master uses them. -/
inductive FutureState where
  | pending
  | resolvedOk
  | resolvedError
  deriving Repr, DecidableEq

/-- The two futures created in `MasterServer.__init__` (`master.py` lines
165-166): the cluster-readiness future and the shutdown future. -/
structure MasterFutures where
  clusterActiveFuture : FutureState
  shutdownFuture : FutureState
  deriving Repr, DecidableEq

/-- Translation of `MasterServer.shutdown` (`master.py` lines 270-275): if
the shutdown future is not done, resolve it; if the readiness future is not
done, resolve it with a `RuntimeError`. -/
def shutdown (s : MasterFutures) : MasterFutures where
  clusterActiveFuture :=
    if s.clusterActiveFuture = .pending then .resolvedError
    else s.clusterActiveFuture
  shutdownFuture :=
    if s.shutdownFuture = .pending then .resolvedOk else s.shutdownFuture

/-- The configured `SlaveInfo` fields the handshake verifies (`master.py`
lines 211-219); the string slave id is modelled as a `Nat`. -/
structure SlaveInfoCfg where
  id : Nat
  shardMaskList : List ShardMask
  deriving Repr, DecidableEq

/-- Translation of the handshake verification in `__connectToSlaves`
(`master.py` lines 211-219): after `sendPing` returns `(id,
shardMaskList)`, each mismatch against the configured `SlaveInfo` triggers
`shutdown`. -/
def verifyPingResponse (cfg : SlaveInfoCfg) (gotId : Nat)
    (gotMasks : List ShardMask) (s : MasterFutures) : MasterFutures :=
  let s1 := if gotId ≠ cfg.id then shutdown s else s
  if gotMasks ≠ cfg.shardMaskList then shutdown s1 else s1

/-- Forwarding targets a slave link may hand frames to.  Modelled from the
spec for the connection classes living outside `src/`
(`quarkchain.cluster.protocol`): the null sink `NULL_CONNECTION` that
acknowledges a send and discards the bytes, a `P2PConnection` to a remote
peer, and another slave link (never a valid target). -/
inductive ForwardConn where
  | nullConnection
  | peerConnection (clusterPeerId : Nat)
  | slaveConnection (id : Nat)
  deriving Repr, DecidableEq

/-- Translation of `SlaveConnection.validateConnection` (`master.py` lines
68-69): `connection == NULL_CONNECTION or isinstance(connection,
P2PConnection)`. -/
def validateConnection : ForwardConn → Bool
  | .nullConnection => true
  | .peerConnection _ => true
  | .slaveConnection _ => false

/-- Translation of `MasterServer.getPeer` (`master.py` lines 483-486):
before `SimpleNetwork` attaches, `network` is `None` and the lookup yields
nothing; afterwards the peer registry (modelled as the list of registered
cluster peer ids) is consulted. -/
def getPeer (network : Option (List Nat)) (clusterPeerId : Nat) :
    Option ForwardConn :=
  match network with
  | none => none
  | some peerIds =>
    if clusterPeerId ∈ peerIds then some (.peerConnection clusterPeerId)
    else none

/-- Translation of `SlaveConnection.getConnectionToForward` (`master.py`
lines 55-66): result `none` means the frame is handled locally by the proxy
layer (RPC dispatch); `some c` means the frame is written unprocessed to
`c`. -/
def getConnectionToForward (network : Option (List Nat))
    (clusterPeerId : Nat) : Option ForwardConn :=
  if clusterPeerId = 0 then none
  else
    match getPeer network clusterPeerId with
    | none => some .nullConnection
    | some peer => some peer

section Helpers

/-- A candidate filtered out by the mask leaves the loop state unchanged. -/
lemma selStep_not_allowed (r : Bool) (mask : Option ShardMask) (st : SelState)
    (e : EcoInfo) (h : maskAllows mask e.branchValue = false) :
    selStep r mask st e = st := by
  unfold selStep
  rw [if_pos]
  simp [h]

/-- The first branch of the selection rule: when the winner is unset, or the
candidate has strictly greater eco, or it ties with a shard winner of
strictly greater recorded height, the candidate becomes the winner with
`dupEcoCount` reset and its height recorded. -/
lemma selStep_replace (r : Bool) (mask : Option ShardMask) (st : SelState)
    (e : EcoInfo) (hm : maskAllows mask e.branchValue = true)
    (h : st.branchValueWithMaxEco = none ∨ e.eco > st.maxEco ∨
      (e.eco = st.maxEco ∧ winnerIsShard st.branchValueWithMaxEco = true ∧
        st.blockHeight > e.height)) :
    selStep r mask st e =
      ⟨some e.branchValue, e.eco, 1, e.height, st.draws⟩ := by
  unfold selStep
  rw [if_neg (by simp [hm]), if_pos h]

/-- With `randomizeOutput = false`, a candidate that does not satisfy the
first branch of the selection rule leaves the state unchanged. -/
lemma selStep_keep_noRandom (mask : Option ShardMask) (st : SelState)
    (e : EcoInfo)
    (h : ¬ (st.branchValueWithMaxEco = none ∨ e.eco > st.maxEco ∨
      (e.eco = st.maxEco ∧ winnerIsShard st.branchValueWithMaxEco = true ∧
        st.blockHeight > e.height))) :
    selStep false mask st e = st := by
  unfold selStep
  by_cases hm : maskAllows mask e.branchValue = true
  · rw [if_neg (by simp [hm]), if_neg h, if_neg (by simp)]
  · rw [if_pos (by simpa using hm)]

/-- The randomized tie-break skips a candidate whose height is strictly
greater than a shard winner's recorded height. -/
lemma selStep_skip (mask : Option ShardMask) (st : SelState) (e : EcoInfo)
    (h : ¬ (st.branchValueWithMaxEco = none ∨ e.eco > st.maxEco ∨
      (e.eco = st.maxEco ∧ winnerIsShard st.branchValueWithMaxEco = true ∧
        st.blockHeight > e.height)))
    (heq : e.eco = st.maxEco)
    (hskip : winnerIsShard st.branchValueWithMaxEco = true ∧
      st.blockHeight < e.height) :
    selStep true mask st e = st := by
  unfold selStep
  by_cases hm : maskAllows mask e.branchValue = true
  · rw [if_neg (by simp [hm]), if_neg h, if_pos ⟨heq, rfl⟩, if_pos hskip]
  · rw [if_pos (by simpa using hm)]

/-- The reservoir arm of the randomized tie-break: increment `dupEcoCount`,
consume one random draw, and replace the winner (keeping the recorded
height) exactly when the draw is below `1 / dupEcoCount`. -/
lemma selStep_reservoir (mask : Option ShardMask) (st : SelState)
    (e : EcoInfo) (hm : maskAllows mask e.branchValue = true)
    (h : ¬ (st.branchValueWithMaxEco = none ∨ e.eco > st.maxEco ∨
      (e.eco = st.maxEco ∧ winnerIsShard st.branchValueWithMaxEco = true ∧
        st.blockHeight > e.height)))
    (heq : e.eco = st.maxEco)
    (hns : ¬ (winnerIsShard st.branchValueWithMaxEco = true ∧
      st.blockHeight < e.height)) :
    selStep true mask st e =
      if (nextDraw st.draws).1 < 1 / ((st.dupEcoCount + 1 : ℕ) : ℚ) then
        ⟨some e.branchValue, e.eco, st.dupEcoCount + 1, st.blockHeight,
          (nextDraw st.draws).2⟩
      else
        { st with dupEcoCount := st.dupEcoCount + 1,
                  draws := (nextDraw st.draws).2 } := by
  unfold selStep
  rw [if_neg (by simp [hm]), if_neg h, if_pos ⟨heq, rfl⟩, if_neg hns]

/-- One loop step either keeps the winner or installs a candidate that
passed the mask filter. -/
lemma selStep_winner_cases (r : Bool) (mask : Option ShardMask)
    (st : SelState) (e : EcoInfo) :
    (selStep r mask st e).branchValueWithMaxEco = st.branchValueWithMaxEco ∨
    ((selStep r mask st e).branchValueWithMaxEco = some e.branchValue ∧
      maskAllows mask e.branchValue = true) := by
  by_cases hm : maskAllows mask e.branchValue = true
  · unfold selStep
    rw [if_neg (by simp [hm])]
    split_ifs <;> simp [hm]
    split_ifs <;> simp
  · rw [selStep_not_allowed r mask st e (by simpa using hm)]
    left
    rfl

/-- Over a whole run of the loop, the winner is either the initial one or
the branch of some candidate that passed the mask filter. -/
lemma foldl_selStep_winner (r : Bool) (mask : Option ShardMask)
    (l : List EcoInfo) (st : SelState) :
    (l.foldl (selStep r mask) st).branchValueWithMaxEco =
      st.branchValueWithMaxEco ∨
    ∃ e ∈ l, (l.foldl (selStep r mask) st).branchValueWithMaxEco =
        some e.branchValue ∧ maskAllows mask e.branchValue = true := by
  induction l generalizing st with
  | nil => exact Or.inl rfl
  | cons a l ih =>
    simp only [List.foldl_cons]
    rcases ih (selStep r mask st a) with h | ⟨e, he, h1, h2⟩
    · rcases selStep_winner_cases r mask st a with h0 | ⟨h1, h2⟩
      · exact Or.inl (h.trans h0)
      · exact Or.inr ⟨a, by simp, h.trans h1, h2⟩
    · exact Or.inr ⟨e, by simp [he], h1, h2⟩

/-- A run in which every candidate is filtered out by the mask leaves the
initial state untouched. -/
lemma foldl_selStep_all_filtered (r : Bool) (mask : Option ShardMask)
    (l : List EcoInfo) (st : SelState)
    (h : ∀ e ∈ l, maskAllows mask e.branchValue = false) :
    l.foldl (selStep r mask) st = st := by
  induction l generalizing st with
  | nil => rfl
  | cons a l ih =>
    simp only [List.foldl_cons]
    rw [selStep_not_allowed r mask st a (h a (by simp))]
    exact ih st (fun e he => h e (by simp [he]))

/-- The proof-of-progress loop equals the find-first formulation: the first
remaining shard id below the threshold decides the fallback, and with none
below it the accumulated headers are extended by the remaining headers in
shard-id order. -/
lemma proofOfProgressLoop_eq_find {Header Block : Type} (pb : Nat)
    (hOf : Nat → List Header) (oracle : Nat → Option Block)
    (create : List Header → Block) (l : List Nat) :
    ∀ acc : List Header,
    proofOfProgressLoop pb hOf oracle create l acc =
      match l.find? (fun i => (hOf i).length < pb) with
      | some i =>
        (match oracle i with
         | none => MineResult.noneResult
         | some blk => MineResult.minor blk)
      | none => .root (create (acc ++ l.flatMap hOf)) := by
  induction l with
  | nil =>
    intro acc
    simp [proofOfProgressLoop]
  | cons i rest ih =>
    intro acc
    by_cases h : (hOf i).length < pb
    · rw [List.find?_cons_of_pos _ (by simpa using h)]
      simp only [proofOfProgressLoop, if_pos h]
    · rw [List.find?_cons_of_neg _ (by simpa using h)]
      simp only [proofOfProgressLoop, if_neg h]
      rw [ih (acc ++ hOf i)]
      simp [List.append_assoc]

end Helpers

/-- Claim C1 (code-bug evidence).  Scenario R1 with the first block updating
the tip: on the queue `[1, 2, 3]`, where `addBlock 1` succeeds and updates
the tip, `addBlock 2` would raise a validation failure and `addBlock 3`
would succeed, the drain calls `addBlock` only on block `1` — the Python
statement `updateTip = updateTip or addBlock(rBlock)` short-circuits once
the flag is true — yet broadcasts all three blocks, instead of calling
`addBlock` on every popped block and broadcasting `[1, 3]` as the claim
states; the peers are then notified because the tip updated. -/
theorem c1_drain_short_circuit_divergence :
    r1AddBlock 2 = .validationFailure ∧
    updateRootBlockDrain r1AddBlock [1, 2, 3] false = ⟨[1], [1, 2, 3], true⟩ ∧
    (updateRootBlockDrain r1AddBlock [1, 2, 3] false).addBlockCalls ≠
      [1, 2, 3] ∧
    (updateRootBlockDrain r1AddBlock [1, 2, 3] false).broadcasts ≠ [1, 3] ∧
    notifiedPeers r1AddBlock [1, 2, 3] [10, 11] = [10, 11] := by
  decide

/-- Loop state used by the claim C2 counterexample: the winner is shard `5`
at recorded height `10` with `maxEco = 3` and `dupEcoCount = 1`, and the
next random draw is `9/10`. -/
def c2State : SelState := ⟨some 5, 3, 1, 10, [9/10]⟩

/-- Candidate used by the claim C2 counterexample: shard `7` at height `4`
with eco `3/1 = 3`, tying the maximum. -/
def c2Candidate : EcoInfo := ⟨7, 4, 1, 3, 0⟩

/-- Claim C2 counterexample.  A candidate ties the maximum eco while the
winner is a shard whose recorded height is strictly greater than the
candidate's, so the claim's skip clause does not apply and the claim
predicts `dupEcoCount` is incremented and the winner replaced only with
probability `1/dupEcoCount`; the code instead replaces the winner
deterministically through the lower-height clause of the first branch —
`dupEcoCount` stays `1` (it is reset, not incremented) and the replacement
happens although the pending draw `9/10` is not below `1/2`. -/
theorem c2_reservoir_counterexample :
    c2Candidate.eco = c2State.maxEco ∧
    ¬ (winnerIsShard c2State.branchValueWithMaxEco = true ∧
        c2State.blockHeight < c2Candidate.height) ∧
    ¬ ((9 : ℚ) / 10 < 1 / ((c2State.dupEcoCount + 1 : ℕ) : ℚ)) ∧
    (selStep true none c2State c2Candidate).dupEcoCount ≠
      c2State.dupEcoCount + 1 ∧
    (selStep true none c2State c2Candidate).branchValueWithMaxEco =
      some c2Candidate.branchValue := by
  have heco : c2Candidate.eco = c2State.maxEco := by
    norm_num [EcoInfo.eco, c2Candidate, c2State]
  have hstep : selStep true none c2State c2Candidate =
      ⟨some c2Candidate.branchValue, c2Candidate.eco, 1, c2Candidate.height,
        c2State.draws⟩ :=
    selStep_replace true none c2State c2Candidate rfl
      (Or.inr (Or.inr ⟨heco, rfl, by decide⟩))
  refine ⟨heco, by simp [c2State, c2Candidate, winnerIsShard], ?_, ?_, ?_⟩
  · norm_num [c2State]
  · rw [hstep]
    simp [c2State]
  · rw [hstep]

/-- Claim C2 as amended.  In the selection loop with `randomizeOutput =
true`, for a candidate whose eco ties the current maximum while a winner is
recorded: when the winner is a shard and the candidate's height is strictly
less than the winner's recorded height, the candidate replaces the winner
deterministically with `dupEcoCount` reset to `1` and its height recorded;
when the winner is a shard and the candidate's height is strictly greater,
the candidate is skipped; otherwise `dupEcoCount` is incremented, one random
draw is consumed, and the candidate replaces the winner (leaving the
recorded height unchanged) exactly when the draw is below `1/dupEcoCount`. -/
theorem c2_reservoir_tie_break (mask : Option ShardMask) (st : SelState)
    (e : EcoInfo) (w : Nat) (hm : maskAllows mask e.branchValue = true)
    (hw : st.branchValueWithMaxEco = some w) (heq : e.eco = st.maxEco) :
    (0 < w → e.height < st.blockHeight →
      selStep true mask st e =
        ⟨some e.branchValue, e.eco, 1, e.height, st.draws⟩) ∧
    (0 < w → st.blockHeight < e.height → selStep true mask st e = st) ∧
    ((w = 0 ∨ e.height = st.blockHeight) →
      ((nextDraw st.draws).1 < 1 / ((st.dupEcoCount + 1 : ℕ) : ℚ) →
        selStep true mask st e =
          ⟨some e.branchValue, e.eco, st.dupEcoCount + 1, st.blockHeight,
            (nextDraw st.draws).2⟩) ∧
      (¬ (nextDraw st.draws).1 < 1 / ((st.dupEcoCount + 1 : ℕ) : ℚ) →
        selStep true mask st e =
          { st with dupEcoCount := st.dupEcoCount + 1,
                    draws := (nextDraw st.draws).2 })) := by
  have hshard : winnerIsShard st.branchValueWithMaxEco = decide (0 < w) := by
    rw [hw]
    rfl
  refine ⟨fun hw0 hh => ?_, fun hw0 hh => ?_, fun hcase => ?_⟩
  · exact selStep_replace true mask st e hm
      (Or.inr (Or.inr ⟨heq, by simp [hshard, hw0], hh⟩))
  · refine selStep_skip mask st e ?_ heq ⟨by simp [hshard, hw0], hh⟩
    rintro (hnone | hgt | ⟨-, -, hght⟩)
    · simp [hw] at hnone
    · exact absurd hgt (by simp [heq])
    · omega
  · have hnotfirst : ¬ (st.branchValueWithMaxEco = none ∨ e.eco > st.maxEco ∨
        (e.eco = st.maxEco ∧ winnerIsShard st.branchValueWithMaxEco = true ∧
          st.blockHeight > e.height)) := by
      rintro (hnone | hgt | ⟨-, hsh, hght⟩)
      · simp [hw] at hnone
      · exact absurd hgt (by simp [heq])
      · rcases hcase with h0 | hhh
        · simp [hshard, h0] at hsh
        · omega
    have hns : ¬ (winnerIsShard st.branchValueWithMaxEco = true ∧
        st.blockHeight < e.height) := by
      rintro ⟨hsh, hlt⟩
      rcases hcase with h0 | hhh
      · simp [hshard, h0] at hsh
      · omega
    have hre := selStep_reservoir mask st e hm hnotfirst heq hns
    constructor
    · intro hdraw
      rw [hre, if_pos hdraw]
    · intro hdraw
      rw [hre, if_neg hdraw]

/-- Claim C2 amended, witnessed: winner shard `3` at height `6`, candidate
shard `4` at equal height with equal eco `2`; the draw `1/10` is below
`1/2`, so the candidate takes over with `dupEcoCount` incremented to `2` and
the recorded height kept. -/
theorem c2_reservoir_tie_break_witness :
    selStep true none ⟨some 3, 2, 1, 6, [1/10]⟩ ⟨4, 6, 1, 2, 0⟩ =
      ⟨some 4, 2, 2, 6, []⟩ := by
  have h := ((c2_reservoir_tie_break none ⟨some 3, 2, 1, 6, [1/10]⟩
      ⟨4, 6, 1, 2, 0⟩ 3 rfl rfl (by norm_num [EcoInfo.eco])).2.2
      (Or.inr rfl)).1 (by norm_num [nextDraw])
  rw [h]
  norm_num [EcoInfo.eco, nextDraw]

/-- Claim C5: the Python proof-of-progress iteration over shard ids
`[0, SHARD_SIZE)` agrees with the spec description — the first shard id
whose header count is below `PROOF_OF_PROGRESS_BLOCKS` triggers the
minor-block fallback on that shard (returning the none result when that
request fails); when every shard meets the threshold, all headers are
concatenated in shard-id order and passed to
`root_state.create_block_to_mine`, and the result is a root block. -/
theorem c5_root_or_fallback {Header Block : Type}
    (shardSize progressBlocks : Nat) (headersOf : Nat → List Header)
    (minorOracle : Nat → Option Block)
    (createBlockToMine : List Header → Block) :
    createRootBlockToMineOrFallback shardSize progressBlocks headersOf
        minorOracle createBlockToMine =
      createRootBlockSpec shardSize progressBlocks headersOf minorOracle
        createBlockToMine := by
  unfold createRootBlockToMineOrFallback createRootBlockSpec
  rw [proofOfProgressLoop_eq_find]
  simp

/-- Claim C6 counterexample: with a single branch reporting an unconfirmed
coinbase sum of `3` and root difficulty `1`, the code computes the root
economy `3 // 2 = 1` (floor division) while the spec formula with exact
division yields `3/2`. -/
theorem c6_floor_division_counterexample :
    initMaxEco [⟨1, 0, 1, 0, 3⟩] 1 ≠ initMaxEcoSpec [⟨1, 0, 1, 0, 3⟩] 1 := by
  norm_num [initMaxEco, initMaxEcoSpec, rootCoinbaseAmount,
    unconfirmedCoinbaseSum]

/-- Claim C6 as amended: the code divides the unconfirmed coinbase sum by 2
with integer floor division before dividing by the root difficulty, so for a
positive difficulty its root economy agrees with the spec formula exactly
when the sum is even. -/
theorem c6_root_eco_floor_iff (ecoList : List EcoInfo) (d : Nat)
    (hd : 0 < d) :
    initMaxEco ecoList d = initMaxEcoSpec ecoList d ↔
      2 ∣ unconfirmedCoinbaseSum ecoList := by
  have hdq : (d : ℚ) ≠ 0 := Nat.cast_ne_zero.mpr hd.ne'
  unfold initMaxEco initMaxEcoSpec rootCoinbaseAmount
  rcases Nat.even_or_odd (unconfirmedCoinbaseSum ecoList) with ⟨k, hk⟩ | ⟨k, hk⟩
  · rw [hk, show (k + k) / 2 = k by omega]
    constructor
    · intro _
      exact ⟨k, by omega⟩
    · intro _
      rw [div_div]
      rw [div_eq_div_iff hdq (by positivity)]
      push_cast
      ring
  · rw [hk, show (2 * k + 1) / 2 = k by omega]
    constructor
    · intro h
      exfalso
      rw [div_div, div_eq_div_iff hdq (by positivity)] at h
      have h1 : (k : ℚ) * (2 * d) = (2 * k + 1) * d := by
        push_cast at h ⊢
        linarith
      have hd0 : (0 : ℚ) < d := by positivity
      nlinarith
    · intro hdvd
      exfalso
      omega

/-- Claim C6 amended, witnessed: an even sum (`4`) with difficulty `1` makes
the floored economy agree with the spec formula. -/
theorem c6_root_eco_floor_iff_witness :
    initMaxEco [⟨1, 0, 1, 0, 4⟩] 1 = initMaxEcoSpec [⟨1, 0, 1, 0, 4⟩] 1 :=
  (c6_root_eco_floor_iff [⟨1, 0, 1, 0, 4⟩] 1 (by decide)).mpr (by decide)

/-- Claim C3: in the selection loop, a candidate with eco strictly greater
than the current maximum replaces the winner, resets `dupEcoCount` to `1`
and records the candidate's height; with `randomizeOutput = false` an
equal-eco candidate replaces the winner exactly when the current winner is a
shard whose recorded height is strictly greater than the candidate's; and in
the S1 fixture — two shards of equal positive eco, no mask, zero unconfirmed
coinbase (so the root's eco is zero) — the shard with the lower height wins
in either iteration order. -/
theorem c3_selection_rule (mask : Option ShardMask) (randomize : Bool)
    (st : SelState) (e a b : EcoInfo) (d : Nat) (draws : List ℚ) :
    (maskAllows mask e.branchValue = true → e.eco > st.maxEco →
      selStep randomize mask st e =
        ⟨some e.branchValue, e.eco, 1, e.height, st.draws⟩) ∧
    (∀ w, maskAllows mask e.branchValue = true →
      st.branchValueWithMaxEco = some w → e.eco = st.maxEco →
      (0 < w ∧ st.blockHeight > e.height →
        selStep false mask st e =
          ⟨some e.branchValue, e.eco, 1, e.height, st.draws⟩) ∧
      (¬ (0 < w ∧ st.blockHeight > e.height) → selStep false mask st e = st)) ∧
    (0 < a.branchValue → 0 < b.branchValue → a.eco = b.eco → 0 < a.eco →
      a.height < b.height → a.unconfirmedHeadersCoinbaseAmount = 0 →
      b.unconfirmedHeadersCoinbaseAmount = 0 →
      (runSelection false none [a, b] d draws).branchValueWithMaxEco =
        some a.branchValue ∧
      (runSelection false none [b, a] d draws).branchValueWithMaxEco =
        some a.branchValue) := by
  refine ⟨fun hm hgt => selStep_replace randomize mask st e hm
      (Or.inr (Or.inl hgt)), fun w hm hw heq => ?_, ?_⟩
  · have hshard : winnerIsShard st.branchValueWithMaxEco = decide (0 < w) := by
      rw [hw]
      rfl
    constructor
    · rintro ⟨hw0, hh⟩
      exact selStep_replace false mask st e hm
        (Or.inr (Or.inr ⟨heq, by simp [hshard, hw0], hh⟩))
    · intro hnot
      refine selStep_keep_noRandom mask st e ?_
      rintro (hnone | hgt | ⟨-, hsh, hght⟩)
      · simp [hw] at hnone
      · exact absurd hgt (by simp [heq])
      · rw [hshard] at hsh
        exact hnot ⟨by simpa using hsh, hght⟩
  · intro ha0 hb0 heco hpos hab hua hub
    have hmaxab : initMaxEco [a, b] d = 0 := by
      simp [initMaxEco, rootCoinbaseAmount, unconfirmedCoinbaseSum, hua, hub]
    have hmaxba : initMaxEco [b, a] d = 0 := by
      simp [initMaxEco, rootCoinbaseAmount, unconfirmedCoinbaseSum, hua, hub]
    constructor
    · show ([a, b].foldl (selStep false none)
        (initSelState none [a, b] d draws)).branchValueWithMaxEco = _
      simp only [List.foldl_cons, List.foldl_nil]
      rw [selStep_replace false none _ a rfl (Or.inr (Or.inl (by
        simp [initSelState, hmaxab, hpos])))]
      rw [selStep_keep_noRandom none _ b (by
        rintro (hnone | hgt | ⟨-, -, hght⟩)
        · simp at hnone
        · exact absurd hgt (by simp [heco])
        · simp at hght
          omega)]
    · show ([b, a].foldl (selStep false none)
        (initSelState none [b, a] d draws)).branchValueWithMaxEco = _
      simp only [List.foldl_cons, List.foldl_nil]
      rw [selStep_replace false none _ b rfl (Or.inr (Or.inl (by
        simp [initSelState, hmaxba, heco ▸ hpos])))]
      rw [selStep_replace false none _ a rfl (Or.inr (Or.inr
        ⟨by simpa using heco, by simp [winnerIsShard, hb0], by simpa using hab⟩))]

/-- Claim C3, witnessed on the S1 fixture: shards `1` (height 5) and `2`
(height 7) with equal eco `3`, root difficulty 10 and no unconfirmed
coinbase — the lower-height shard `1` wins in both iteration orders. -/
theorem c3_selection_rule_witness :
    (runSelection false none
      [⟨1, 5, 2, 6, 0⟩, ⟨2, 7, 2, 6, 0⟩] 10 []).branchValueWithMaxEco =
        some 1 ∧
    (runSelection false none
      [⟨2, 7, 2, 6, 0⟩, ⟨1, 5, 2, 6, 0⟩] 10 []).branchValueWithMaxEco =
        some 1 :=
  (c3_selection_rule none false ⟨none, 0, 1, 0, []⟩ ⟨0, 0, 0, 0, 0⟩
      ⟨1, 5, 2, 6, 0⟩ ⟨2, 7, 2, 6, 0⟩ 10 []).2.2
    (by decide) (by decide) rfl (by norm_num [EcoInfo.eco]) (by decide) rfl rfl

/-- Claim C4: with a non-zero `shardMaskValue`, only slaves whose mask list
overlaps the supplied mask are polled for eco info, any winner the selection
loop produces is the branch of a reported candidate contained in the mask,
and — because the root branch `0` is not a shard and hence not contained in
any mask — the root path of `getNextBlockToMine` is never taken. -/
theorem c4_mask_restricts_selection (interp : Nat → ShardMask) (mv : Nat)
    (pool : List SlaveConn) (ecoList : List EcoInfo) (d : Nat)
    (draws : List ℚ) (randomize : Bool) (hmv : mv ≠ 0)
    (h0 : (interp mv).containBranchValue 0 = false) :
    (∀ s, s ∈ polledSlaves pool (some (interp mv)) ↔
      s ∈ pool ∧ s.hasOverlap (interp mv) = true) ∧
    (∀ v, (runSelection randomize (some (interp mv)) ecoList d
        draws).branchValueWithMaxEco = some v →
      (interp mv).containBranchValue v = true ∧
        ∃ e ∈ ecoList, e.branchValue = v) ∧
    getNextBlockToMinePath interp mv randomize ecoList d draws ≠
      .rootPath := by
  have hwin : ∀ v, (runSelection randomize (some (interp mv)) ecoList d
      draws).branchValueWithMaxEco = some v →
      (interp mv).containBranchValue v = true ∧
        ∃ e ∈ ecoList, e.branchValue = v := by
    intro v hv
    rcases foldl_selStep_winner randomize (some (interp mv)) ecoList
        (initSelState (some (interp mv)) ecoList d draws) with h | ⟨e, he, h1, h2⟩
    · rw [runSelection] at hv
      rw [hv] at h
      simp [initSelState] at h
    · rw [runSelection] at hv
      rw [hv] at h1
      obtain rfl : v = e.branchValue := by simpa using h1
      exact ⟨by simpa [maskAllows] using h2, e, he, rfl⟩
  refine ⟨fun s => by simp [polledSlaves, List.mem_filter], hwin, ?_⟩
  have hpath : getNextBlockToMinePath interp mv randomize ecoList d draws =
      dispatchPath (runSelection randomize (some (interp mv)) ecoList d
        draws).branchValueWithMaxEco := by
    unfold getNextBlockToMinePath
    rw [if_neg hmv]
  rw [hpath]
  cases hcase : (runSelection randomize (some (interp mv)) ecoList d
      draws).branchValueWithMaxEco with
  | none => simp [dispatchPath]
  | some v =>
    have hc := (hwin v hcase).1
    cases v with
    | zero => rw [h0] at hc; exact absurd hc (by simp)
    | succ k => simp [dispatchPath]

/-- Claim C4, witnessed: mask value 5 interpreted as the mask over shard
branches `{2, 3}`; with one reported candidate on branch 9 the root path is
not taken. -/
theorem c4_mask_restricts_selection_witness :
    getNextBlockToMinePath (fun _ => ⟨[2, 3]⟩) 5 true [⟨9, 1, 1, 4, 0⟩] 1 [] ≠
      .rootPath :=
  (c4_mask_restricts_selection (fun _ => ⟨[2, 3]⟩) 5 [] [⟨9, 1, 1, 4, 0⟩] 1 []
    true (by decide) (by decide)).2.2

/-- Claim C7: `addTransaction` derives the branch from the transaction and
returns `False` without contacting any slave when the branch value is not a
key of `branchToSlaves`; otherwise it contacts exactly the slaves in the
branch's list and succeeds if and only if every one of them reports
success. -/
theorem c7_add_transaction_fanout (branchToSlaves : List (Nat × List SlaveConn))
    (slaveAccepts : SlaveConn → Bool) (tx : Tx) :
    (branchToSlaves.lookup tx.branchValue = none →
      addTransaction branchToSlaves slaveAccepts tx = (false, [])) ∧
    (∀ slaves, branchToSlaves.lookup tx.branchValue = some slaves →
      (addTransaction branchToSlaves slaveAccepts tx).2 = slaves ∧
      ((addTransaction branchToSlaves slaveAccepts tx).1 = true ↔
        ∀ s ∈ slaves, slaveAccepts s = true)) := by
  constructor
  · intro h
    simp [addTransaction, h]
  · intro slaves h
    simp [addTransaction, h, List.all_eq_true]

/-- Claim C7, witnessed: a registry serving only branch 3; the transaction
on branch 3 reaches its slave and succeeds, the transaction on branch 4
fails with no slave contacted. -/
theorem c7_add_transaction_fanout_witness :
    (addTransaction [(3, [⟨1, [⟨[3]⟩]⟩])] (fun _ => true) ⟨3⟩).1 = true ∧
    addTransaction [(3, [⟨1, [⟨[3]⟩]⟩])] (fun _ => true) ⟨4⟩ = (false, []) :=
  ⟨((c7_add_transaction_fanout [(3, [⟨1, [⟨[3]⟩]⟩])] (fun _ => true) ⟨3⟩).2
      [⟨1, [⟨[3]⟩]⟩] (by decide)).2.mpr (by decide),
    (c7_add_transaction_fanout [(3, [⟨1, [⟨[3]⟩]⟩])] (fun _ => true) ⟨4⟩).1
      (by decide)⟩

/-- Claim C8: a PING response whose id or shard-mask list differs from the
configured `SlaveInfo` triggers shutdown — the shutdown future is resolved
and a still-pending readiness future is resolved with an error — and
`shutdown` is idempotent. -/
theorem c8_handshake_mismatch_shutdown (cfg : SlaveInfoCfg) (gotId : Nat)
    (gotMasks : List ShardMask) (s : MasterFutures) :
    ((gotId ≠ cfg.id ∨ gotMasks ≠ cfg.shardMaskList) →
      (s.shutdownFuture = .pending →
        (verifyPingResponse cfg gotId gotMasks s).shutdownFuture =
          .resolvedOk) ∧
      (s.clusterActiveFuture = .pending →
        (verifyPingResponse cfg gotId gotMasks s).clusterActiveFuture =
          .resolvedError)) ∧
    shutdown (shutdown s) = shutdown s := by
  constructor
  · intro hmis
    unfold verifyPingResponse
    by_cases h1 : gotId = cfg.id <;> by_cases h2 : gotMasks = cfg.shardMaskList
    · rcases hmis with h | h
      · exact absurd h1 h
      · exact absurd h2 h
    · constructor <;> intro hp <;> simp [h1, h2, shutdown, hp]
    · constructor <;> intro hp <;> simp [h1, h2, shutdown, hp]
    · constructor <;> intro hp <;> simp [h1, h2, shutdown, hp]
  · cases s with
    | mk a b => cases a <;> cases b <;> rfl

/-- Claim C8, witnessed on scenario B2: the config declares slave id 1, the
slave answers with id 2 — both futures resolve, the readiness one with an
error; a second `shutdown` changes nothing. -/
theorem c8_handshake_mismatch_shutdown_witness :
    (verifyPingResponse ⟨1, [⟨[0]⟩]⟩ 2 [⟨[0]⟩]
      ⟨.pending, .pending⟩).shutdownFuture = .resolvedOk ∧
    (verifyPingResponse ⟨1, [⟨[0]⟩]⟩ 2 [⟨[0]⟩]
      ⟨.pending, .pending⟩).clusterActiveFuture = .resolvedError ∧
    shutdown (shutdown ⟨.pending, .pending⟩) = shutdown ⟨.pending, .pending⟩ := by
  have h := c8_handshake_mismatch_shutdown ⟨1, [⟨[0]⟩]⟩ 2 [⟨[0]⟩]
    ⟨.pending, .pending⟩
  exact ⟨(h.1 (Or.inl (by decide))).1 rfl, (h.1 (Or.inl (by decide))).2 rfl,
    h.2⟩

/-- Claim C9: an inbound slave frame with `cluster_peer_id = 0` yields no
forwarding target (it is handled locally); a non-zero id always yields a
target — the registered peer when one exists, the null sink otherwise — so
the frame is never handled locally; and the only connections
`validateConnection` accepts as forwarding targets are the null sink and
peer connections. -/
theorem c9_forwarding_rule (network : Option (List Nat)) (cpid : Nat) :
    (getConnectionToForward network cpid = none ↔ cpid = 0) ∧
    (cpid ≠ 0 →
      (getPeer network cpid = none →
        getConnectionToForward network cpid = some .nullConnection) ∧
      (∀ p, getPeer network cpid = some p →
        getConnectionToForward network cpid = some p)) ∧
    (∀ c, getConnectionToForward network cpid = some c →
      validateConnection c = true) ∧
    (∀ c, validateConnection c = true ↔
      c = .nullConnection ∨ ∃ p, c = .peerConnection p) := by
  have hpeer : ∀ c, getPeer network cpid = some c →
      c = .peerConnection cpid := by
    intro c hc
    cases network with
    | none => simp [getPeer] at hc
    | some peerIds =>
      simp only [getPeer] at hc
      by_cases h : cpid ∈ peerIds
      · rw [if_pos h] at hc
        exact (Option.some_inj.mp hc).symm
      · rw [if_neg h] at hc
        exact absurd hc (by simp)
  refine ⟨?_, fun h0 => ⟨fun hnone => ?_, fun p hp => ?_⟩, fun c hc => ?_,
    fun c => ?_⟩
  · unfold getConnectionToForward
    by_cases h : cpid = 0
    · simp [h]
    · rw [if_neg h]
      cases getPeer network cpid <;> simp [h]
  · unfold getConnectionToForward
    rw [if_neg h0, hnone]
  · unfold getConnectionToForward
    rw [if_neg h0, hp]
  · unfold getConnectionToForward at hc
    by_cases h : cpid = 0
    · rw [if_pos h] at hc
      exact absurd hc (by simp)
    · rw [if_neg h] at hc
      cases hg : getPeer network cpid with
      | none =>
        rw [hg] at hc
        obtain rfl : ForwardConn.nullConnection = c := Option.some_inj.mp hc
        rfl
      | some p =>
        rw [hg] at hc
        obtain rfl : p = c := Option.some_inj.mp hc
        rw [hpeer p hg]
        rfl
  · cases c <;> simp [validateConnection]

/-- Claim C9, witnessed: with peer 4 registered, frames with id 0 stay
local, frames for 4 reach the peer, frames for the departed peer 6 go to
the null sink. -/
theorem c9_forwarding_rule_witness :
    getConnectionToForward (some [4]) 0 = none ∧
    getConnectionToForward (some [4]) 4 = some (.peerConnection 4) ∧
    getConnectionToForward (some [4]) 6 = some .nullConnection :=
  ⟨(c9_forwarding_rule (some [4]) 0).1.mpr rfl,
    ((c9_forwarding_rule (some [4]) 4).2.1 (by decide)).2 (.peerConnection 4)
      (by decide),
    ((c9_forwarding_rule (some [4]) 6).2.1 (by decide)).1 (by decide)⟩

/-- Claim C10: with a non-zero `shardMaskValue` and no reported branch
contained in the mask, the selection loop ends with the winner still the
unset sentinel `None` — distinct from the root branch value 0, so the root
path is not taken — and the function proceeds into
`Branch(branchValueWithMaxEco)` with the sentinel, modelled as the crash
path: a graceful none result is only guaranteed when at least one eligible
branch is reported. -/
theorem c10_no_eligible_branch_crashes (interp : Nat → ShardMask) (mv : Nat)
    (randomize : Bool) (ecoList : List EcoInfo) (d : Nat) (draws : List ℚ)
    (hmv : mv ≠ 0)
    (hnone : ∀ e ∈ ecoList,
      (interp mv).containBranchValue e.branchValue = false) :
    (runSelection randomize (some (interp mv)) ecoList d
        draws).branchValueWithMaxEco = none ∧
    (runSelection randomize (some (interp mv)) ecoList d
        draws).branchValueWithMaxEco ≠ some 0 ∧
    getNextBlockToMinePath interp mv randomize ecoList d draws =
      .crashPath := by
  have hrun : runSelection randomize (some (interp mv)) ecoList d draws =
      initSelState (some (interp mv)) ecoList d draws :=
    foldl_selStep_all_filtered randomize (some (interp mv)) ecoList _
      (fun e he => by simpa [maskAllows] using hnone e he)
  have hwin : (runSelection randomize (some (interp mv)) ecoList d
      draws).branchValueWithMaxEco = none := by
    rw [hrun]
    simp [initSelState]
  refine ⟨hwin, by simp [hwin], ?_⟩
  have hpath : getNextBlockToMinePath interp mv randomize ecoList d draws =
      dispatchPath (runSelection randomize (some (interp mv)) ecoList d
        draws).branchValueWithMaxEco := by
    unfold getNextBlockToMinePath
    rw [if_neg hmv]
  rw [hpath, hwin]
  rfl

/-- Claim C10, witnessed: mask value 1 interpreted as the empty mask and a
single reported branch 2 — the loop keeps the sentinel and the call ends in
the crash path rather than a graceful none result. -/
theorem c10_no_eligible_branch_crashes_witness :
    getNextBlockToMinePath (fun _ => ⟨[]⟩) 1 false [⟨2, 0, 1, 1, 0⟩] 1 [] =
      .crashPath :=
  (c10_no_eligible_branch_crashes (fun _ => ⟨[]⟩) 1 false [⟨2, 0, 1, 1, 0⟩] 1
    [] (by decide) (by decide)).2.2

end QuarkMaster
